import Mathlib

/-!
Shallow embedding of the gitignore-generator core
(`src/gitignore_generator/generator.py` and `src/gitignore_generator/templates.py`)
and proofs about its merge, search, resolve, cache-validity and generate logic.

Python strings are modelled as Lean `String`s; the Python `str` primitives used
by the source (`strip`, `rstrip`, `lower`, `split`, `startswith`, `endswith`,
substring membership `in`, `replace`) are defined explicitly on `List Char`.
Python `set` is modelled as `Finset String`; dict sections keep insertion order
as association lists.
-/

namespace Gitignore

/-- Python whitespace characters (the set stripped by `str.strip`). -/
def pyWs (c : Char) : Bool :=
  c = ' ' || c = '\t' || c = '\n' || c = '\r' || c = '\x0b' || c = '\x0c'

/-- Python `str.lstrip` on a character list. -/
def lstripL (l : List Char) : List Char := l.dropWhile pyWs

/-- Python `str.rstrip` on a character list. -/
def rstripL (l : List Char) : List Char := (l.reverse.dropWhile pyWs).reverse

/-- Python `str.strip` on a character list. -/
def stripL (l : List Char) : List Char := rstripL (lstripL l)

/-- Python `str.split(sep)` for a one-character separator, on character lists.
`''.split(s) = ['']`, and the result is never empty. -/
def splitOnCharL (sep : Char) : List Char → List (List Char)
  | [] => [[]]
  | c :: cs =>
    if c = sep then [] :: splitOnCharL sep cs
    else (c :: (splitOnCharL sep cs).headD []) :: (splitOnCharL sep cs).tail

/-- Python `str.split('\n')`. -/
def splitNl (l : List Char) : List (List Char) := splitOnCharL '\n' l

/-- Python substring test `pat in l`. -/
def listContains (pat : List Char) : List Char → Bool
  | [] => pat.isEmpty
  | c :: cs => pat.isPrefixOf (c :: cs) || listContains pat cs

/-- Python `str.strip` on `String`. -/
def pyStrip (s : String) : String := ⟨stripL s.data⟩

/-- Python `str.rstrip` on `String`. -/
def pyRstrip (s : String) : String := ⟨rstripL s.data⟩

/-- Python `str.lower` on `String` (ASCII behaviour). -/
def pyLower (s : String) : String := ⟨s.data.map Char.toLower⟩

/-- Python `pat in s` on `String`. -/
def strContains (s pat : String) : Bool := listContains pat.data s.data

/-- Python `s.endswith(pat)`. -/
def pyEndswith (s pat : String) : Bool := pat.data.isSuffixOf s.data

/-- Python `s.startswith(pat)`. -/
def pyStartswith (s pat : String) : Bool := pat.data.isPrefixOf s.data

/-- Python `s.replace(pat, rep)` on character lists (replaces every
non-overlapping occurrence, scanning left to right). -/
def replaceL (pat rep : List Char) (l : List Char) : List Char :=
  match l with
  | [] => []
  | c :: cs =>
    if pat ≠ [] ∧ pat.isPrefixOf (c :: cs) then
      rep ++ replaceL pat rep (cs.drop (pat.length - 1))
    else
      c :: replaceL pat rep cs
termination_by l.length
decreasing_by
  · simp only [List.length_drop, List.length_cons]
    omega
  · simp only [List.length_cons]
    omega

/-- Python `s.replace(pat, rep)` on `String`. -/
def pyReplace (s pat rep : String) : String := ⟨replaceL pat.data rep.data s.data⟩

/-! ## generator.py -/

/-- `GitignoreGenerator._normalize_template_name`: last `/`-separated segment. -/
def normalize_template_name (name : String) : String :=
  ⟨(splitOnCharL '/' name.data).getLastD []⟩

/-- `GitignoreGenerator.template_to_section`: decorative border, header line,
border, then the content right-stripped with one trailing newline. -/
def template_to_section (template_name content : String) : String :=
  let header := normalize_template_name template_name
  let header_line := "##### " ++ header ++ " #####"
  let decorator : String := ⟨List.replicate header_line.length '#'⟩
  decorator ++ "\n" ++ header_line ++ "\n" ++ decorator ++ "\n" ++ pyRstrip content ++ "\n"

/-- Rule lines of a document: every line, stripped, that is non-empty and does
not start with `#` (the body of `GitignoreGenerator._extract_rules`). -/
def ruleLinesL (l : List Char) : List (List Char) :=
  ((splitNl l).map stripL).filter (fun s => decide (s ≠ [] ∧ s.head? ≠ some '#'))

/-- `GitignoreGenerator._extract_rules`: the set of rule lines of a document. -/
def extract_rules (content : String) : Finset String :=
  ((ruleLinesL content.data).map String.mk).toFinset

/-- The fixed user-marker heading `##### Project Specific #####`. -/
def markerHeader : String := "##### Project Specific #####"

/-- The fixed trailing marker section appended by `merge_templates`
(border, heading, border, instructive comment). -/
def markerBlock : String :=
  let decorator : String := ⟨List.replicate markerHeader.length '#'⟩
  decorator ++ "\n" ++ markerHeader ++ "\n" ++ decorator ++ "\n"
    ++ "# Add your project-specific rules below this line\n"

/-- One iteration of the template loop of `merge_templates`: compute the
template's rules, the not-yet-seen subset, unconditionally union the full rule
set, and append the full section only when the new subset is non-empty. -/
def mergeStep (acc : String × Finset String) (t : String × String) : String × Finset String :=
  let template_rules := extract_rules t.2
  let new_rules := template_rules \ acc.2
  (if new_rules ≠ ∅ then acc.1 ++ template_to_section t.1 t.2 ++ "\n" else acc.1,
   acc.2 ∪ template_rules)

/-- The initial accumulator of `merge_templates`: when preservation is
requested and the existing content is truthy (non-`None`, non-empty), its
rules seed the duplicate-detection set, and its right-stripped text plus a
blank line is prepended unless it already contains the user-marker heading. -/
def mergeInit (preserve_existing : Bool) (existing_content : Option String) :
    String × Finset String :=
  match preserve_existing, existing_content with
  | true, some ex =>
    if ex ≠ "" then
      (if strContains ex markerHeader = false then pyRstrip ex ++ "\n\n" else "",
       extract_rules ex)
    else ("", ∅)
  | _, _ => ("", ∅)

/-- `GitignoreGenerator.merge_templates`.  `existing_content = some ex` with
`ex ≠ ""` models a truthy Python `existing_content`. -/
def merge_templates (templates : List (String × String)) (preserve_existing : Bool)
    (existing_content : Option String) : String :=
  let res := templates.foldl mergeStep (mergeInit preserve_existing existing_content)
  pyRstrip (res.1 ++ markerBlock) ++ "\n"

/-- `GitignoreGenerator.generate`, with the output file modelled as
`Option String` (`none` = the file does not exist).  Returns the success flag,
the message, and the resulting file state; the underlying write is modelled as
succeeding. -/
def generate (templates : List (String × String)) (merge_strategy : String)
    (file : Option String) : Bool × String × Option String :=
  if templates = [] then (false, "No templates provided", file)
  else
    let exists_ := file.isSome
    if exists_ ∧ merge_strategy = "cancel" then (false, "Operation cancelled", file)
    else
      let merged :=
        match file, merge_strategy with
        | some existing, s =>
          if exists_ ∧ s = "append" then merge_templates templates true (some existing)
          else merge_templates templates false none
        | none, _ => merge_templates templates false none
      let action := if exists_ = false ∨ merge_strategy = "overwrite" then "Created" else "Updated"
      (true, action ++ " .gitignore successfully!", some merged)

/-! ## templates.py -/

/-- `CACHE_VALIDITY_DAYS`. -/
def CACHE_VALIDITY_DAYS : Nat := 7

/-- Microseconds in one day (`timedelta` comparisons are exact to the microsecond). -/
def microsPerDay : Nat := 86400000000

/-- `TemplateManager._is_cache_valid`: the manifest file must exist and its age
(`now - mtime`, in microseconds) must be strictly below 7 days. -/
def is_cache_valid (manifestExists : Bool) (ageMicros : Int) : Bool :=
  manifestExists && decide (ageMicros < (CACHE_VALIDITY_DAYS : Int) * (microsPerDay : Int))

/-- `GITHUB_API_BASE`. -/
def GITHUB_API_BASE : String := "https://api.github.com/repos/github/gitignore/contents"

/-- One record of a GitHub contents listing, restricted to the fields the
source reads: `name`, `type`, `url`, `download_url`. -/
structure ApiItem where
  name : String
  itemType : String
  url : String
  download_url : String
deriving DecidableEq

/-- Outcome of `TemplateManager._fetch_from_api` on one URL followed by
`json.loads`: `netFail` models a `None`/falsy body (network error or empty
response), `parseFail` a body that raises `json.JSONDecodeError`, and
`ok items` a well-formed listing. -/
inductive FetchOutcome where
  | netFail : FetchOutcome
  | parseFail : FetchOutcome
  | ok : List ApiItem → FetchOutcome

/-- One manifest entry: `path`, `download_url`, `category`. -/
structure ManifestEntry where
  path : String
  download_url : String
  category : String
deriving DecidableEq

/-- The manifest built by `_fetch_manifest_from_api`: the three category
sections in insertion order, and whether the `timestamp` key was set
(`return {}` on a failed root fetch produces a manifest with no keys at all). -/
structure Manifest where
  root : List (String × ManifestEntry)
  globalSec : List (String × ManifestEntry)
  communitySec : List (String × ManifestEntry)
  hasTimestamp : Bool
deriving DecidableEq

/-- The entirely empty dict returned when the root listing fetch fails. -/
def emptyManifest : Manifest := ⟨[], [], [], false⟩

/-- Root-section entries built from a successfully parsed root listing:
file items with the `.gitignore` suffix, keyed by name minus suffix. -/
def rootEntriesOf (items : List ApiItem) : List (String × ManifestEntry) :=
  (items.filter (fun it => decide (it.itemType = "file" ∧ pyEndswith it.name ".gitignore" = true))).map
    (fun it => (pyReplace it.name ".gitignore" "", ⟨it.name, it.download_url, "root"⟩))

/-- Entries contributed by one item of a subtree listing: a directory triggers
one more listing query (skipped entirely on network or parse failure), a
`.gitignore` file becomes a single entry, anything else contributes nothing. -/
def itemEntriesOf (api : String → FetchOutcome) (subfolder : String) (item : ApiItem) :
    List (String × ManifestEntry) :=
  if item.itemType = "dir" then
    match api item.url with
    | .ok sub_items =>
      (sub_items.filter
          (fun it => decide (it.itemType = "file" ∧ pyEndswith it.name ".gitignore" = true))).map
        (fun it =>
          (subfolder ++ "/" ++ item.name ++ "/" ++ pyReplace it.name ".gitignore" "",
           ⟨subfolder ++ "/" ++ item.name ++ "/" ++ it.name, it.download_url, subfolder⟩))
    | _ => []
  else if item.itemType = "file" ∧ pyEndswith item.name ".gitignore" = true then
    [(subfolder ++ "/" ++ pyReplace item.name ".gitignore" "",
      ⟨subfolder ++ "/" ++ item.name, item.download_url, subfolder⟩)]
  else []

/-- Entries of one category subtree (`Global` or `community`): a network
failure `continue`s and a parse failure is swallowed, leaving the section
empty; otherwise each listed item contributes via `itemEntriesOf`. -/
def subEntriesOf (api : String → FetchOutcome) (subfolder : String) :
    List (String × ManifestEntry) :=
  match api (GITHUB_API_BASE ++ "/" ++ subfolder) with
  | .netFail => []
  | .parseFail => []
  | .ok items => items.flatMap (itemEntriesOf api subfolder)

/-- `TemplateManager._fetch_manifest_from_api`: a falsy root response returns
the empty dict outright; a root parse failure leaves the root section empty
but still processes both subtrees. -/
def fetch_manifest (api : String → FetchOutcome) : Manifest :=
  match api GITHUB_API_BASE with
  | .netFail => emptyManifest
  | .parseFail => ⟨[], subEntriesOf api "Global", subEntriesOf api "community", true⟩
  | .ok items =>
      ⟨rootEntriesOf items, subEntriesOf api "Global", subEntriesOf api "community", true⟩

/-- All template full names in catalog iteration order:
`root`, then `Global`, then `community` keys. -/
def allTemplateNames (m : Manifest) : List String :=
  (m.root.map Prod.fst) ++ (m.globalSec.map Prod.fst) ++ (m.communitySec.map Prod.fst)

/-- The partial-match loop of `search_templates`: append a template when the
lowercase query occurs in its lowercase name and it is not already a result. -/
def containsLoop (query_lower : String) (results : List String) :
    List String → List String
  | [] => results
  | t :: ts =>
    containsLoop query_lower
      (if listContains query_lower.data (pyLower t).data && !results.contains t
       then results ++ [t] else results) ts

/-- `TemplateManager.search_templates`: empty/whitespace query yields `[]`;
a first case-insensitive exact match is returned alone; otherwise prefix
matches in catalog order (`query_lower` a prefix of the lowered name), then
deduplicated substring matches via `containsLoop`. -/
def search_templates (m : Manifest) (query : String) : List String :=
  if pyStrip query = "" then []
  else
    match (allTemplateNames m).find? (fun t => pyLower t == pyLower query) with
    | some t => [t]
    | none =>
      containsLoop (pyLower query)
        ((allTemplateNames m).filter
          (fun t => (pyLower query).data.isPrefixOf (pyLower t).data))
        (allTemplateNames m)

/-- `TemplateManager.resolve_template`: first case-insensitive exact match,
else the unique search candidate, else `none`. -/
def resolve_template (m : Manifest) (template_name : String) : Option String :=
  match (allTemplateNames m).find? (fun t => pyLower t == pyLower template_name) with
  | some full_name => some full_name
  | none =>
    match search_templates m template_name with
    | [single] => some single
    | _ => none

/-! ## Lemmas about the string primitives -/

theorem splitOnCharL_ne_nil (sep : Char) (l : List Char) : splitOnCharL sep l ≠ [] := by
  cases l with
  | nil => simp [splitOnCharL]
  | cons c cs =>
    simp only [splitOnCharL]
    split <;> simp

theorem splitOnCharL_append_sep (sep : Char) (a b : List Char) :
    splitOnCharL sep (a ++ sep :: b) = splitOnCharL sep a ++ splitOnCharL sep b := by
  induction a with
  | nil => simp [splitOnCharL]
  | cons c cs ih =>
    by_cases hc : c = sep
    · subst hc
      simp [splitOnCharL, ih]
    · cases h : splitOnCharL sep cs with
      | nil => exact absurd h (splitOnCharL_ne_nil sep cs)
      | cons x xs =>
        simp [splitOnCharL, if_neg hc, ih, h]

theorem splitOnCharL_append_nonsep (sep c : Char) (hc : ¬ c = sep) (a : List Char) :
    splitOnCharL sep (a ++ [c]) =
      (splitOnCharL sep a).dropLast ++ [(splitOnCharL sep a).getLastD [] ++ [c]] := by
  induction a with
  | nil => simp [splitOnCharL, if_neg hc]
  | cons d ds ih =>
    rcases h : splitOnCharL sep ds with _ | ⟨x, xs⟩
    · exact absurd h (splitOnCharL_ne_nil sep ds)
    by_cases hd : d = sep
    · subst hd
      have e1 : splitOnCharL d (d :: (ds ++ [c])) = [] :: splitOnCharL d (ds ++ [c]) := by
        simp [splitOnCharL]
      have e2 : splitOnCharL d (d :: ds) = [] :: splitOnCharL d ds := by
        simp [splitOnCharL]
      rw [List.cons_append, e1, ih, e2, h]
      cases xs <;> simp
    · have e1 : splitOnCharL sep (d :: (ds ++ [c])) =
          (d :: (splitOnCharL sep (ds ++ [c])).headD []) :: (splitOnCharL sep (ds ++ [c])).tail := by
        simp [splitOnCharL, if_neg hd]
      have e2 : splitOnCharL sep (d :: ds) =
          (d :: (splitOnCharL sep ds).headD []) :: (splitOnCharL sep ds).tail := by
        simp [splitOnCharL, if_neg hd]
      rw [List.cons_append, e1, ih, e2, h]
      cases xs <;> simp

theorem headD_splitOnCharL_isPre (sep : Char) (l : List Char) :
    (splitOnCharL sep l).headD [] <+: l := by
  induction l with
  | nil => simp [splitOnCharL]
  | cons c cs ih =>
    by_cases hc : c = sep
    · simp [splitOnCharL, if_pos hc]
    · cases h : splitOnCharL sep cs with
      | nil => exact absurd h (splitOnCharL_ne_nil sep cs)
      | cons x xs =>
        rw [h, List.headD_cons] at ih
        simp only [splitOnCharL, if_neg hc, h, List.headD_cons]
        exact List.cons_prefix_cons.mpr ⟨rfl, ih⟩

theorem mem_splitOnCharL_infix (sep : Char) (l : List Char) (s : List Char)
    (hs : s ∈ splitOnCharL sep l) : s <:+: l := by
  induction l generalizing s with
  | nil =>
    simp [splitOnCharL] at hs
    simp [hs]
  | cons c cs ih =>
    by_cases hc : c = sep
    · rw [splitOnCharL, if_pos hc] at hs
      simp only [List.mem_cons] at hs
      rcases hs with h | h
      · simp [h]
      · exact List.infix_cons (ih s h)
    · cases h : splitOnCharL sep cs with
      | nil => exact absurd h (splitOnCharL_ne_nil sep cs)
      | cons x xs =>
        rw [splitOnCharL, if_neg hc, h] at hs
        simp only [List.headD_cons, List.tail_cons, List.mem_cons] at hs
        rcases hs with h1 | h2
        · subst h1
          have hx : x <+: cs := by
            have := headD_splitOnCharL_isPre sep cs
            rwa [h, List.headD_cons] at this
          exact (List.cons_prefix_cons.2 ⟨rfl, hx⟩).isInfix
        · exact List.infix_cons (ih s (by rw [h]; exact List.mem_cons_of_mem x h2))

theorem listContains_iff (pat l : List Char) : listContains pat l = true ↔ pat <:+: l := by
  induction l with
  | nil => simp [listContains, List.isEmpty_iff]
  | cons c cs ih =>
    simp only [listContains, Bool.or_eq_true, List.isPrefixOf_iff_prefix, ih,
      List.infix_cons_iff]

theorem rstripL_append_ws (l : List Char) (c : Char) (hc : pyWs c = true) :
    rstripL (l ++ [c]) = rstripL l := by
  simp [rstripL, List.dropWhile_cons, hc]

theorem rstripL_append_nonws (l : List Char) (c : Char) (hc : pyWs c = false) :
    rstripL (l ++ [c]) = l ++ [c] := by
  simp [rstripL, List.dropWhile_cons, hc]

theorem stripL_append_ws (l : List Char) (c : Char) (hc : pyWs c = true) :
    stripL (l ++ [c]) = stripL l := by
  simp only [stripL, lstripL]
  rcases h : l.dropWhile pyWs with _ | ⟨x, xs⟩
  · rw [List.dropWhile_append, h]
    simp [List.dropWhile_cons, hc, rstripL]
  · rw [List.dropWhile_append, h]
    simp only [List.isEmpty_cons, Bool.false_eq_true, if_false]
    exact rstripL_append_ws _ c hc

theorem rstripL_isPre (l : List Char) : rstripL l <+: l := by
  rw [rstripL]
  have h : l.reverse.dropWhile pyWs <:+ l.reverse := List.dropWhile_suffix pyWs
  rw [← List.reverse_prefix] at h
  simpa using h

theorem exists_rstripL_decomp (l : List Char) :
    ∃ w, l = rstripL l ++ w ∧ ∀ c ∈ w, pyWs c = true := by
  refine ⟨(l.reverse.takeWhile pyWs).reverse, ?_, ?_⟩
  · rw [rstripL]
    have h := List.takeWhile_append_dropWhile (l := l.reverse) (p := pyWs)
    calc l = l.reverse.reverse := by simp
    _ = (l.reverse.takeWhile pyWs ++ l.reverse.dropWhile pyWs).reverse := by rw [h]
    _ = (l.reverse.dropWhile pyWs).reverse ++ (l.reverse.takeWhile pyWs).reverse := by
          rw [List.reverse_append]
  · intro c hcmem
    exact List.mem_takeWhile_imp (by simpa using hcmem)

/-! ## Lemmas about rule extraction -/

/-- Rule set of a character-list document. -/
def rulesOfL (l : List Char) : Finset String := ((ruleLinesL l).map String.mk).toFinset

theorem extract_rules_eq (s : String) : extract_rules s = rulesOfL s.data := rfl

theorem extract_rules_mk (l : List Char) : extract_rules ⟨l⟩ = rulesOfL l := rfl

theorem dropLast_append_getLastD (l : List (List Char)) (hl : l ≠ []) :
    l.dropLast ++ [l.getLastD []] = l := by
  rw [List.getLastD_eq_getLast?]
  cases h : l.getLast? with
  | none => exact absurd (List.getLast?_eq_none_iff.mp h) hl
  | some y => exact List.dropLast_append_getLast? y h

theorem ruleLinesL_append_nl (a b : List Char) :
    ruleLinesL (a ++ '\n' :: b) = ruleLinesL a ++ ruleLinesL b := by
  simp only [ruleLinesL, splitNl, splitOnCharL_append_sep, List.map_append, List.filter_append]

theorem rulesOfL_append_nl (a b : List Char) :
    rulesOfL (a ++ '\n' :: b) = rulesOfL a ∪ rulesOfL b := by
  simp only [rulesOfL, ruleLinesL_append_nl, List.map_append, List.toFinset_append]

theorem splitNl_map_stripL_append_ws (a : List Char) (c : Char) (hc : pyWs c = true)
    (hnl : ¬ c = '\n') :
    ((splitNl (a ++ [c])).map stripL) = (splitNl a).map stripL := by
  rw [splitNl, splitOnCharL_append_nonsep '\n' c hnl a]
  have hsplit : (splitOnCharL '\n' a).dropLast ++ [(splitOnCharL '\n' a).getLastD []] =
      splitOnCharL '\n' a := dropLast_append_getLastD _ (splitOnCharL_ne_nil '\n' a)
  calc ((splitOnCharL '\n' a).dropLast ++ [(splitOnCharL '\n' a).getLastD [] ++ [c]]).map stripL
      = (splitOnCharL '\n' a).dropLast.map stripL
          ++ [stripL ((splitOnCharL '\n' a).getLastD [] ++ [c])] := by
        rw [List.map_append]; rfl
    _ = (splitOnCharL '\n' a).dropLast.map stripL
          ++ [stripL ((splitOnCharL '\n' a).getLastD [])] := by
        rw [stripL_append_ws _ c hc]
    _ = ((splitOnCharL '\n' a).dropLast ++ [(splitOnCharL '\n' a).getLastD []]).map stripL := by
        rw [List.map_append]; rfl
    _ = (splitNl a).map stripL := by rw [hsplit]; rfl

theorem ruleLinesL_nil : ruleLinesL [] = [] := by
  simp [ruleLinesL, splitNl, splitOnCharL, stripL, lstripL, rstripL]

theorem ruleLinesL_append_ws (a : List Char) (c : Char) (hc : pyWs c = true) :
    ruleLinesL (a ++ [c]) = ruleLinesL a := by
  by_cases hnl : c = '\n'
  · subst hnl
    have h : a ++ ['\n'] = a ++ '\n' :: [] := rfl
    rw [h, ruleLinesL_append_nl, ruleLinesL_nil, List.append_nil]
  · simp only [ruleLinesL]
    rw [splitNl_map_stripL_append_ws a c hc hnl]

theorem ruleLinesL_append_allws (a w : List Char) (hw : ∀ c ∈ w, pyWs c = true) :
    ruleLinesL (a ++ w) = ruleLinesL a := by
  induction w generalizing a with
  | nil => simp
  | cons c w' ih =>
    have : a ++ c :: w' = (a ++ [c]) ++ w' := by simp
    rw [this, ih (a ++ [c]) (fun d hd => hw d (List.mem_cons_of_mem c hd)),
      ruleLinesL_append_ws a c (hw c (List.mem_cons_self c w'))]

theorem ruleLinesL_rstrip (l : List Char) : ruleLinesL (rstripL l) = ruleLinesL l := by
  obtain ⟨w, hw, hws⟩ := exists_rstripL_decomp l
  conv_rhs => rw [hw]
  rw [ruleLinesL_append_allws _ w hws]

theorem rulesOfL_rstrip (l : List Char) : rulesOfL (rstripL l) = rulesOfL l := by
  simp only [rulesOfL, ruleLinesL_rstrip]

/-! ## Closed form of the merge loop -/

/-- The duplicate-detection set after processing a template list, starting
from `R`: the union of `R` with every template's full rule set. -/
def unionRules (R : Finset String) (ts : List (String × String)) : Finset String :=
  ts.foldl (fun A t => A ∪ extract_rules t.2) R

/-- The concatenation of sections emitted by the merge loop starting from
accumulated rule set `R`: a template contributes its full section followed
by a blank line exactly when it has a rule outside the accumulated set, and
its full rule set always enters the accumulated set. -/
def emitSections (R : Finset String) : List (String × String) → String
  | [] => ""
  | t :: ts =>
    (if extract_rules t.2 \ R ≠ ∅ then template_to_section t.1 t.2 ++ "\n" else "")
      ++ emitSections (R ∪ extract_rules t.2) ts

theorem unionRules_nil (R : Finset String) : unionRules R [] = R := rfl

theorem unionRules_cons (R : Finset String) (t : String × String)
    (ts : List (String × String)) :
    unionRules R (t :: ts) = unionRules (R ∪ extract_rules t.2) ts := rfl

theorem unionRules_append (R : Finset String) (ts₁ ts₂ : List (String × String)) :
    unionRules R (ts₁ ++ ts₂) = unionRules (unionRules R ts₁) ts₂ :=
  List.foldl_append _ _ _ _

theorem foldl_mergeStep (ts : List (String × String)) :
    ∀ m R, ts.foldl mergeStep (m, R) = (m ++ emitSections R ts, unionRules R ts) := by
  induction ts with
  | nil => intro m R; simp [emitSections, unionRules_nil]
  | cons t ts ih =>
    intro m R
    rw [List.foldl_cons]
    by_cases h : extract_rules t.2 \ R ≠ ∅
    · have hstep : mergeStep (m, R) t =
          (m ++ template_to_section t.1 t.2 ++ "\n", R ∪ extract_rules t.2) := by
        simp [mergeStep, h]
      rw [hstep, ih, unionRules_cons]
      simp only [emitSections, if_pos h]
      rw [← String.append_assoc, ← String.append_assoc]
    · have hstep : mergeStep (m, R) t = (m, R ∪ extract_rules t.2) := by
        simp [mergeStep, h]
      rw [hstep, ih, unionRules_cons]
      simp only [emitSections, if_neg h]
      rw [String.empty_append]

theorem merge_templates_closed (ts : List (String × String)) (pe : Bool)
    (ex : Option String) :
    merge_templates ts pe ex =
      pyRstrip ((mergeInit pe ex).1 ++ emitSections (mergeInit pe ex).2 ts ++ markerBlock)
        ++ "\n" := by
  rw [merge_templates, foldl_mergeStep]

theorem emitSections_append (R : Finset String) (ts₁ ts₂ : List (String × String)) :
    emitSections R (ts₁ ++ ts₂) =
      emitSections R ts₁ ++ emitSections (unionRules R ts₁) ts₂ := by
  induction ts₁ generalizing R with
  | nil => rw [List.nil_append, emitSections, String.empty_append, unionRules_nil]
  | cons t ts ih =>
    rw [List.cons_append, emitSections, emitSections, ih, unionRules_cons,
      String.append_assoc]

/-! ## The trailing marker and the final right-strip -/

/-- The trailing marker section without its final newline. -/
def mbCore : String := "############################\n##### Project Specific #####\n############################\n# Add your project-specific rules below this line"

theorem markerBlock_eq_mbCore : markerBlock = mbCore ++ "\n" := by decide

theorem mbCore_data_concat : mbCore.data = mbCore.data.dropLast ++ ['e'] := by decide

theorem pyRstrip_append_markerBlock (s : String) :
    pyRstrip (s ++ markerBlock) = s ++ mbCore := by
  have h1 : (s ++ markerBlock).data = (s.data ++ mbCore.data) ++ ['\n'] := by
    rw [markerBlock_eq_mbCore]
    simp [String.data_append]
  have h2 : rstripL ((s.data ++ mbCore.data) ++ ['\n']) = s.data ++ mbCore.data := by
    rw [rstripL_append_ws _ '\n' (by decide)]
    conv_lhs => rw [mbCore_data_concat, ← List.append_assoc]
    rw [rstripL_append_nonws _ 'e' (by decide), List.append_assoc, ← mbCore_data_concat]
  show (⟨rstripL (s ++ markerBlock).data⟩ : String) = s ++ mbCore
  rw [h1, h2]
  rfl

/-- A string is newline-terminated when it is empty or its last character is
a newline; every piece `merge_templates` concatenates has this shape. -/
def NlTerminated (s : String) : Prop := s = "" ∨ ∃ x, s.data = x ++ ['\n']

theorem nlTerminated_empty : NlTerminated "" := Or.inl rfl

theorem nlTerminated_append_nl (s : String) : NlTerminated (s ++ "\n") :=
  Or.inr ⟨s.data, by simp [String.data_append]⟩

theorem rulesOfL_nil : rulesOfL [] = ∅ := by
  rw [rulesOfL, ruleLinesL_nil]
  rfl

theorem rulesOfL_append_ws (a : List Char) (c : Char) (hc : pyWs c = true) :
    rulesOfL (a ++ [c]) = rulesOfL a := by
  rw [rulesOfL, ruleLinesL_append_ws a c hc, rulesOfL]

theorem extract_rules_append_of_nlTerm (a b : String) (ha : NlTerminated a) :
    extract_rules (a ++ b) = extract_rules a ∪ extract_rules b := by
  rcases ha with h | ⟨x, hx⟩
  · subst h
    rw [String.empty_append]
    rw [show extract_rules "" = ∅ from rfl]
    rw [Finset.empty_union]
  · rw [extract_rules_eq, extract_rules_eq, extract_rules_eq, String.data_append, hx,
      List.append_assoc]
    show rulesOfL (x ++ '\n' :: b.data) = rulesOfL (x ++ ['\n']) ∪ rulesOfL b.data
    rw [rulesOfL_append_nl, rulesOfL_append_ws x '\n' (by decide)]

theorem nlTerminated_emitSections (R : Finset String) (ts : List (String × String)) :
    NlTerminated (emitSections R ts) := by
  induction ts generalizing R with
  | nil => exact nlTerminated_empty
  | cons t ts ih =>
    rw [emitSections]
    by_cases h : extract_rules t.2 \ R ≠ ∅
    · rw [if_pos h]
      rcases ih (R ∪ extract_rules t.2) with h2 | ⟨y, hy⟩
      · rw [h2, String.append_empty]
        exact nlTerminated_append_nl _
      · exact Or.inr ⟨(template_to_section t.1 t.2 ++ "\n").data ++ y, by
          simp [String.data_append, hy]⟩
    · rw [if_neg h, String.empty_append]
      exact ih (R ∪ extract_rules t.2)

theorem extract_rules_section_superset (n c : String) :
    extract_rules c ⊆ extract_rules (template_to_section n c) := by
  rw [extract_rules_eq, extract_rules_eq]
  have hdata : (template_to_section n c).data =
      (⟨List.replicate ("##### " ++ normalize_template_name n ++ " #####").length '#'⟩ :
          String).data
        ++ '\n' :: (("##### " ++ normalize_template_name n ++ " #####").data
        ++ '\n' :: ((⟨List.replicate ("##### " ++ normalize_template_name n ++ " #####").length '#'⟩ :
            String).data
        ++ '\n' :: (rstripL c.data ++ ['\n']))) := by
    rw [template_to_section]
    simp [String.data_append, pyRstrip]
  rw [hdata, rulesOfL_append_nl, rulesOfL_append_nl, rulesOfL_append_nl,
    rulesOfL_append_ws _ '\n' (by decide), rulesOfL_rstrip]
  intro r hr
  simp only [Finset.mem_union]
  exact Or.inr (Or.inr (Or.inr hr))

theorem nlTerminated_section (n c : String) : NlTerminated (template_to_section n c) := by
  simp only [template_to_section]
  exact nlTerminated_append_nl _

theorem unionRules_subset_emit (ts : List (String × String)) (R : Finset String) :
    unionRules R ts ⊆ R ∪ extract_rules (emitSections R ts) := by
  induction ts generalizing R with
  | nil =>
    rw [unionRules_nil, emitSections]
    exact Finset.subset_union_left
  | cons t ts ih =>
    rw [unionRules_cons, emitSections]
    by_cases h : extract_rules t.2 \ R ≠ ∅
    · rw [if_pos h]
      refine (ih (R ∪ extract_rules t.2)).trans ?_
      rw [extract_rules_append_of_nlTerm _ _ (nlTerminated_append_nl _),
        extract_rules_append_of_nlTerm _ _ (nlTerminated_section t.1 t.2)]
      rw [show extract_rules "\n" = ∅ from rfl, Finset.union_empty]
      intro r hr
      simp only [Finset.mem_union] at hr ⊢
      rcases hr with (hr | hr) | hr
      · exact Or.inl hr
      · exact Or.inr (Or.inl (extract_rules_section_superset t.1 t.2 hr))
      · exact Or.inr (Or.inr hr)
    · rw [if_neg h, String.empty_append]
      refine (ih (R ∪ extract_rules t.2)).trans ?_
      have hsub : extract_rules t.2 ⊆ R := by
        rw [not_not] at h
        exact Finset.sdiff_eq_empty_iff_subset.mp h
      intro r hr
      simp only [Finset.mem_union] at hr ⊢
      rcases hr with (hr | hr) | hr
      · exact Or.inl hr
      · exact Or.inl (hsub hr)
      · exact Or.inr hr

/-! ## Further helper lemmas -/

theorem unionRules_init_subset (ts : List (String × String)) (R : Finset String) :
    R ⊆ unionRules R ts := by
  induction ts generalizing R with
  | nil => exact Finset.Subset.refl R
  | cons t ts ih => exact Finset.subset_union_left.trans (ih (R ∪ extract_rules t.2))

theorem mem_subset_unionRules (ts : List (String × String)) (R : Finset String)
    (p : String × String) (hp : p ∈ ts) : extract_rules p.2 ⊆ unionRules R ts := by
  induction ts generalizing R with
  | nil => cases hp
  | cons t ts ih =>
    rw [unionRules_cons]
    rcases List.mem_cons.mp hp with h | h
    · subst h
      exact Finset.subset_union_right.trans (unionRules_init_subset ts _)
    · exact ih _ h

theorem mergeInit_false (ex : Option String) : mergeInit false ex = ("", ∅) := rfl

/-! ## Counting occurrences of the marker heading line -/

/-- Number of lines of a character-list document equal to the marker heading. -/
def headingLineCountL (l : List Char) : Nat :=
  (splitNl l).countP (fun s => decide (s = markerHeader.data))

/-- Number of lines of a document equal to the marker heading. -/
def headingLineCount (doc : String) : Nat := headingLineCountL doc.data

theorem headingLineCountL_append_nl (a b : List Char) :
    headingLineCountL (a ++ '\n' :: b) = headingLineCountL a + headingLineCountL b := by
  simp only [headingLineCountL, splitNl, splitOnCharL_append_sep, List.countP_append]

theorem headingLineCountL_append_single_nl (a : List Char) :
    headingLineCountL (a ++ ['\n']) = headingLineCountL a := by
  have h : a ++ ['\n'] = a ++ '\n' :: [] := rfl
  rw [h, headingLineCountL_append_nl]
  rw [show headingLineCountL [] = 0 from by decide, Nat.add_zero]

theorem headingLineCountL_append_of_nlTerm (a : String) (b : List Char)
    (ha : NlTerminated a) :
    headingLineCountL (a.data ++ b) = headingLineCountL a.data + headingLineCountL b := by
  rcases ha with h | ⟨x, hx⟩
  · rw [h]
    show headingLineCountL ([] ++ b) = headingLineCountL ([] : List Char) + headingLineCountL b
    rw [List.nil_append, show headingLineCountL ([] : List Char) = 0 from by decide,
      Nat.zero_add]
  · rw [hx, List.append_assoc]
    show headingLineCountL (x ++ '\n' :: b) = headingLineCountL (x ++ ['\n']) + _
    rw [headingLineCountL_append_nl, headingLineCountL_append_single_nl]

theorem headingLineCountL_eq_zero (l : List Char)
    (h : markerHeader.data ∉ splitNl l) : headingLineCountL l = 0 := by
  rw [headingLineCountL, List.countP_eq_zero]
  intro a ha
  simp only [decide_eq_true_eq]
  intro he
  exact h (he ▸ ha)

theorem nlTerminated_append (a b : String) (ha : NlTerminated a) (hb : NlTerminated b) :
    NlTerminated (a ++ b) := by
  rcases hb with h | ⟨y, hy⟩
  · subst h
    rw [String.append_empty]
    exact ha
  · exact Or.inr ⟨a.data ++ y, by rw [String.data_append, hy, List.append_assoc]⟩

theorem headingLineCountL_emit (R : Finset String) (ts : List (String × String))
    (hts : ∀ p ∈ ts, markerHeader.data ∉ splitNl (template_to_section p.1 p.2).data) :
    headingLineCountL (emitSections R ts).data = 0 := by
  induction ts generalizing R with
  | nil =>
    rw [show emitSections R [] = "" from rfl]
    decide
  | cons t ts ih =>
    rw [emitSections]
    by_cases h : extract_rules t.2 \ R ≠ ∅
    · rw [if_pos h]
      have hd : ((template_to_section t.1 t.2 ++ "\n") ++ emitSections (R ∪ extract_rules t.2) ts).data
          = (template_to_section t.1 t.2).data ++ '\n' :: (emitSections (R ∪ extract_rules t.2) ts).data := by
        simp [String.data_append]
      rw [hd, headingLineCountL_append_nl,
        headingLineCountL_eq_zero _ (hts t (List.mem_cons_self t ts)),
        ih _ (fun p hp => hts p (List.mem_cons_of_mem t hp))]
    · rw [if_neg h, String.empty_append]
      exact ih _ (fun p hp => hts p (List.mem_cons_of_mem t hp))

theorem headingLineCountL_prepended (ex : String)
    (hc : strContains ex markerHeader = false) :
    headingLineCountL (pyRstrip ex ++ "\n\n").data = 0 := by
  have hd : (pyRstrip ex ++ "\n\n").data = (rstripL ex.data ++ ['\n']) ++ ['\n'] := by
    simp [pyRstrip, String.data_append]
  rw [hd, headingLineCountL_append_single_nl, headingLineCountL_append_single_nl]
  apply headingLineCountL_eq_zero
  intro hmem
  have hinfix : markerHeader.data <:+: rstripL ex.data := mem_splitOnCharL_infix '\n' _ _ hmem
  have hinfix2 : markerHeader.data <:+: ex.data :=
    hinfix.trans (rstripL_isPre ex.data).isInfix
  have htrue : listContains markerHeader.data ex.data = true :=
    (listContains_iff markerHeader.data ex.data).mpr hinfix2
  have hfalse : listContains markerHeader.data ex.data = false := hc
  rw [htrue] at hfalse
  cases hfalse

theorem headingLineCountL_mergeInit (pe : Bool) (ex : Option String) :
    headingLineCountL (mergeInit pe ex).1.data = 0 := by
  match pe, ex with
  | false, _ =>
    rw [mergeInit_false]
    decide
  | true, none =>
    rw [show mergeInit true none = ("", ∅) from rfl]
    decide
  | true, some ex =>
    by_cases hex : ex = ""
    · subst hex
      rw [show mergeInit true (some "") = ("", ∅) from by decide]
      decide
    · rw [show mergeInit true (some ex) =
          (if strContains ex markerHeader = false then pyRstrip ex ++ "\n\n" else "",
           extract_rules ex) from by simp [mergeInit, hex]]
      by_cases hc : strContains ex markerHeader = false
      · rw [if_pos hc]
        exact headingLineCountL_prepended ex hc
      · rw [if_neg hc]
        show headingLineCountL ("" : String).data = 0
        decide

theorem nlTerminated_mergeInit (pe : Bool) (ex : Option String) :
    NlTerminated (mergeInit pe ex).1 := by
  match pe, ex with
  | false, _ => exact nlTerminated_empty
  | true, none => exact nlTerminated_empty
  | true, some ex =>
    by_cases hex : ex = ""
    · subst hex
      exact nlTerminated_empty
    · rw [show mergeInit true (some ex) =
          (if strContains ex markerHeader = false then pyRstrip ex ++ "\n\n" else "",
           extract_rules ex) from by simp [mergeInit, hex]]
      by_cases hc : strContains ex markerHeader = false
      · rw [if_pos hc]
        exact Or.inr ⟨(pyRstrip ex ++ "\n").data, by simp [String.data_append]⟩
      · rw [if_neg hc]
        exact nlTerminated_empty

/-! ## Claim theorems -/

/-- C1: in `merge_templates`, templates are processed in caller order; a
template's section (built from its entire original content) plus a blank line
is appended exactly when its rule set has a member outside the accumulated
set, the full rule set (not just the new subset) is always unioned into the
accumulated set, and a template with no new rules contributes nothing —
header included. -/
theorem claim_C1_merge_loop (ts : List (String × String)) :
    merge_templates ts false none = pyRstrip (emitSections ∅ ts ++ markerBlock) ++ "\n"
    ∧ ∀ (R : Finset String) (ts₁ ts₂ : List (String × String)) (n c : String),
        emitSections R (ts₁ ++ (n, c) :: ts₂) =
          emitSections R ts₁
            ++ ((if extract_rules c \ unionRules R ts₁ ≠ ∅
                 then template_to_section n c ++ "\n" else "")
              ++ emitSections (unionRules R ts₁ ∪ extract_rules c) ts₂) := by
  constructor
  · rw [merge_templates_closed, mergeInit_false, String.empty_append]
  · intro R ts₁ ts₂ n c
    rw [emitSections_append]
    rfl

/-- C4: the rule set extracted from a merge without an existing document is a
superset of the union of the input templates' rule sets (both as the folded
union and template by template). -/
theorem claim_C4_rules_superset (ts : List (String × String)) :
    unionRules ∅ ts ⊆ extract_rules (merge_templates ts false none)
    ∧ ∀ p ∈ ts, extract_rules p.2 ⊆ extract_rules (merge_templates ts false none) := by
  have hmain : unionRules ∅ ts ⊆ extract_rules (merge_templates ts false none) := by
    rw [merge_templates_closed, mergeInit_false]
    simp only [String.empty_append]
    rw [show pyRstrip (emitSections ∅ ts ++ markerBlock) ++ "\n" =
        emitSections ∅ ts ++ (mbCore ++ "\n") from by
      rw [pyRstrip_append_markerBlock, String.append_assoc]]
    rw [extract_rules_append_of_nlTerm _ _ (nlTerminated_emitSections ∅ ts)]
    rw [show extract_rules (mbCore ++ "\n") = ∅ from by decide, Finset.union_empty]
    have h := unionRules_subset_emit ts ∅
    rwa [Finset.empty_union] at h
  exact ⟨hmain, fun p hp => (mem_subset_unionRules ts ∅ p hp).trans hmain⟩

/-- C4 witness at a concrete input. -/
theorem claim_C4_witness :
    extract_rules "*.pyc\n" ⊆
      extract_rules (merge_templates [("Python", "*.pyc\n")] false none) :=
  (claim_C4_rules_superset [("Python", "*.pyc\n")]).2 ("Python", "*.pyc\n")
    (List.mem_singleton.mpr rfl)

/-- C2 counterexample: two templates share the rule `shared`; the later
template still has a unique rule, so its full section — including the shared
rule's text — is emitted verbatim in the merged output, contradicting the
claim that the later section excludes the shared rule text. -/
theorem claim_C2_counterexample :
    (extract_rules "shared" ∩ extract_rules "shared\nunique").Nonempty
    ∧ strContains (merge_templates [("A", "shared"), ("B", "shared\nunique")] false none)
        (template_to_section "B" "shared\nunique") = true
    ∧ strContains (template_to_section "B" "shared\nunique") "shared" = true := by
  refine ⟨?_, ?_, ?_⟩ <;> decide

/-- C2 (amended): for templates sharing at least one rule, the later
template's entire section — header and all, shared rule text included — is
emitted when it still has a rule outside the earlier template's rule set, and
the whole section (header included) is omitted when it has none. -/
theorem claim_C2_amended (n1 c1 n2 c2 : String)
    (hshare : (extract_rules c1 ∩ extract_rules c2).Nonempty) :
    (extract_rules c2 ⊆ extract_rules c1 →
      merge_templates [(n1, c1), (n2, c2)] false none =
        merge_templates [(n1, c1)] false none)
    ∧ (¬ extract_rules c2 ⊆ extract_rules c1 →
      merge_templates [(n1, c1), (n2, c2)] false none =
        pyRstrip (emitSections ∅ [(n1, c1)]
          ++ (template_to_section n2 c2 ++ "\n") ++ markerBlock) ++ "\n"
      ∧ ∀ r ∈ extract_rules c1 ∩ extract_rules c2,
          r ∈ extract_rules (template_to_section n2 c2)) := by
  constructor
  · intro hsub
    rw [merge_templates_closed, merge_templates_closed, mergeInit_false]
    have h2 : extract_rules c2 \ (∅ ∪ extract_rules c1) = ∅ := by
      rw [Finset.empty_union]
      exact Finset.sdiff_eq_empty_iff_subset.mpr hsub
    simp only [emitSections, unionRules_cons, unionRules_nil, h2, ne_eq,
      not_true_eq_false, if_false, String.append_empty, not_not]
  · intro hsub
    constructor
    · rw [merge_templates_closed, mergeInit_false]
      have h2 : extract_rules c2 \ (∅ ∪ extract_rules c1) ≠ ∅ := by
        rw [Finset.empty_union]
        intro h
        exact hsub (Finset.sdiff_eq_empty_iff_subset.mp h)
      simp only [emitSections, unionRules_cons, unionRules_nil, ne_eq, h2,
        not_false_eq_true, if_true, String.append_empty, String.empty_append,
        String.append_assoc]
    · intro r hr
      exact extract_rules_section_superset n2 c2 (Finset.mem_inter.mp hr).2

/-- C2 witness at a concrete input. -/
theorem claim_C2_witness :
    merge_templates [("A", "x"), ("B", "x")] false none =
      merge_templates [("A", "x")] false none :=
  (claim_C2_amended "A" "x" "B" "x" (by decide)).1 (by decide)

/-- C5 counterexample: a template whose content itself contains the marker
section text (all of whose lines are comments, plus one real rule so the
section is emitted) yields a merged document in which the marker heading line
occurs twice and the full marker section text occurs inside the template's own
emitted section, contradicting "exactly once for every input template list". -/
theorem claim_C5_counterexample :
    headingLineCount (merge_templates
      [("T", "x\n############################\n##### Project Specific #####\n############################\n# Add your project-specific rules below this line")]
      false none) = 2
    ∧ strContains (template_to_section "T"
        "x\n############################\n##### Project Specific #####\n############################\n# Add your project-specific rules below this line")
        mbCore = true := by
  refine ⟨?_, ?_⟩ <;> decide

/-- C5 (amended): provided no emitted section carries the marker heading as
one of its own lines, every merged document — with or without preservation of
an existing document, and in the zero-duplicate and all-duplicate cases —
contains the marker heading line exactly once, and ends with the trailing
marker section. -/
theorem claim_C5_amended (ts : List (String × String)) (pe : Bool) (ex : Option String)
    (hts : ∀ p ∈ ts, markerHeader.data ∉ splitNl (template_to_section p.1 p.2).data) :
    headingLineCount (merge_templates ts pe ex) = 1
    ∧ (mbCore ++ "\n").data <:+ (merge_templates ts pe ex).data := by
  have hdoc : merge_templates ts pe ex =
      ((mergeInit pe ex).1 ++ emitSections (mergeInit pe ex).2 ts) ++ (mbCore ++ "\n") := by
    rw [merge_templates_closed, pyRstrip_append_markerBlock, String.append_assoc]
  constructor
  · rw [hdoc, headingLineCount, String.data_append,
      headingLineCountL_append_of_nlTerm _ _
        (nlTerminated_append _ _ (nlTerminated_mergeInit pe ex)
          (nlTerminated_emitSections _ ts)),
      String.data_append,
      headingLineCountL_append_of_nlTerm _ _ (nlTerminated_mergeInit pe ex),
      headingLineCountL_mergeInit pe ex, headingLineCountL_emit _ ts hts,
      show headingLineCountL (mbCore ++ "\n").data = 1 from by decide]
  · rw [hdoc, String.data_append]
    exact ⟨_, rfl⟩

/-- C5 witness at a concrete input. -/
theorem claim_C5_witness :
    headingLineCount (merge_templates [("A", "x")] false none) = 1 :=
  (claim_C5_amended [("A", "x")] false none (by decide)).1

/-- C8 counterexample: with an empty existing document (which does not contain
the marker heading) the claim demands that its trimmed text plus a blank line
be prepended, i.e. that the output start with two newlines; the code treats a
falsy existing document as absent and prepends nothing. -/
theorem claim_C8_counterexample :
    strContains "" markerHeader = false
    ∧ pyStartswith (merge_templates [("A", "x")] true (some ""))
        (pyRstrip "" ++ "\n\n") = false := by
  refine ⟨?_, ?_⟩ <;> decide

/-- C8 (amended): in preserve mode with a *non-empty* existing document, the
document's rules always seed the duplicate-detection set, and its trimmed
text plus a blank line is prepended iff it does not contain the marker
heading; an empty existing document is treated as if absent. -/
theorem claim_C8_amended (ts : List (String × String)) (ex : String) (hex : ex ≠ "") :
    merge_templates ts true (some ex) =
      pyRstrip ((if strContains ex markerHeader = false then pyRstrip ex ++ "\n\n" else "")
          ++ emitSections (extract_rules ex) ts ++ markerBlock) ++ "\n"
    ∧ merge_templates ts true (some "") = merge_templates ts false none := by
  constructor
  · rw [merge_templates_closed]
    have hinit : mergeInit true (some ex) =
        (if strContains ex markerHeader = false then pyRstrip ex ++ "\n\n" else "",
         extract_rules ex) := by
      simp [mergeInit, hex]
    rw [hinit]
  · rfl

/-- C8 witness at a concrete input. -/
theorem claim_C8_witness :
    merge_templates [("A", "a")] true (some "keep\n") =
      pyRstrip ((if strContains "keep\n" markerHeader = false
            then pyRstrip "keep\n" ++ "\n\n" else "")
          ++ emitSections (extract_rules "keep\n") [("A", "a")] ++ markerBlock) ++ "\n" :=
  (claim_C8_amended [("A", "a")] "keep\n" (by decide)).1

/-- A concrete fetch oracle on which the root listing suffers a network
failure while the `Global` subtree listing is perfectly obtainable. -/
def api0 : String → FetchOutcome := fun url =>
  if url = GITHUB_API_BASE then FetchOutcome.netFail
  else if url = GITHUB_API_BASE ++ "/Global" then
    FetchOutcome.ok [⟨"Archives.gitignore", "file", "u1", "d1"⟩]
  else FetchOutcome.ok []

/-- C3 counterexample: under `api0` the `Global` subtree is obtainable (its
section builder produces an entry), yet a network failure at the *root*
listing makes the fetch return the entirely empty catalog without proceeding
to the subtrees — so the failure is not confined to the root section. -/
theorem claim_C3_counterexample :
    fetch_manifest api0 = emptyManifest
    ∧ subEntriesOf api0 "Global" ≠ []
    ∧ (fetch_manifest api0).globalSec = [] := by
  refine ⟨?_, ?_, ?_⟩ <;> decide

/-- C3 (amended): a parse failure at the root listing, and network or parse
failures at a category subtree or subdirectory listing, are non-fatal and
confined — only the corresponding section (or directory's contribution) is
left empty and everything else is built from whatever was obtainable; but a
network failure (or empty response) at the root listing aborts the whole
fetch, returning the empty catalog without consulting the subtrees.  The
operation always returns a catalog value. -/
theorem claim_C3_amended (api : String → FetchOutcome) :
    (api GITHUB_API_BASE = FetchOutcome.netFail → fetch_manifest api = emptyManifest)
    ∧ (api GITHUB_API_BASE = FetchOutcome.parseFail →
        (fetch_manifest api).root = []
        ∧ (fetch_manifest api).globalSec = subEntriesOf api "Global"
        ∧ (fetch_manifest api).communitySec = subEntriesOf api "community"
        ∧ (fetch_manifest api).hasTimestamp = true)
    ∧ (∀ items, api GITHUB_API_BASE = FetchOutcome.ok items →
        (fetch_manifest api).root = rootEntriesOf items
        ∧ (fetch_manifest api).globalSec = subEntriesOf api "Global"
        ∧ (fetch_manifest api).communitySec = subEntriesOf api "community"
        ∧ (fetch_manifest api).hasTimestamp = true)
    ∧ (∀ sub, (api (GITHUB_API_BASE ++ "/" ++ sub) = FetchOutcome.netFail ∨
          api (GITHUB_API_BASE ++ "/" ++ sub) = FetchOutcome.parseFail) →
        subEntriesOf api sub = [])
    ∧ (∀ sub items, api (GITHUB_API_BASE ++ "/" ++ sub) = FetchOutcome.ok items →
        subEntriesOf api sub = items.flatMap (itemEntriesOf api sub))
    ∧ (∀ sub item, item.itemType = "dir" →
        (api item.url = FetchOutcome.netFail ∨ api item.url = FetchOutcome.parseFail) →
        itemEntriesOf api sub item = []) := by
  refine ⟨?_, ?_, ?_, ?_, ?_, ?_⟩
  · intro h
    rw [fetch_manifest, h]
  · intro h
    rw [fetch_manifest, h]
    exact ⟨rfl, rfl, rfl, rfl⟩
  · intro items h
    rw [fetch_manifest, h]
    exact ⟨rfl, rfl, rfl, rfl⟩
  · intro sub h
    rcases h with h | h <;> rw [subEntriesOf, h]
  · intro sub items h
    rw [subEntriesOf, h]
  · intro sub item hdir h
    rcases h with h | h <;> simp only [itemEntriesOf, hdir, if_true, h]

/-- C3 witness at a concrete input. -/
theorem claim_C3_witness :
    fetch_manifest (fun _ => FetchOutcome.netFail) = emptyManifest :=
  (claim_C3_amended (fun _ => FetchOutcome.netFail)).1 rfl

/-! ## Search and resolve -/

theorem containsLoop_eq (ql : String) (l : List String) :
    ∀ res, l.Nodup →
      containsLoop ql res l =
        res ++ l.filter (fun t => listContains ql.data (pyLower t).data && !res.contains t) := by
  induction l with
  | nil =>
    intro res _
    simp [containsLoop]
  | cons t ts ih =>
    intro res hnd
    rcases List.nodup_cons.mp hnd with ⟨htmem, hnd'⟩
    rw [containsLoop]
    by_cases hcond : (listContains ql.data (pyLower t).data && !res.contains t) = true
    · rw [if_pos hcond, ih (res ++ [t]) hnd', List.filter_cons, if_pos hcond]
      have hfilter :
          ts.filter (fun x => listContains ql.data (pyLower x).data
              && !(res ++ [t]).contains x) =
          ts.filter (fun x => listContains ql.data (pyLower x).data && !res.contains x) := by
        apply List.filter_congr
        intro x hx
        have hxt : ¬ x = t := fun h => htmem (h ▸ hx)
        have hcontains : (res ++ [t]).contains x = res.contains x := by
          simp [List.contains, List.elem_eq_mem, List.mem_append, hxt]
        rw [hcontains]
      rw [hfilter, List.append_assoc]
      rfl
    · rw [if_neg hcond, ih res hnd', List.filter_cons, if_neg hcond]

theorem find?_lower_eq_some (cat : List String) (q t : String) (ht : t ∈ cat)
    (heq : pyLower t = pyLower q)
    (huniq : ∀ t' ∈ cat, pyLower t' = pyLower q → t' = t) :
    cat.find? (fun t' => pyLower t' == pyLower q) = some t := by
  cases hfind : cat.find? (fun t' => pyLower t' == pyLower q) with
  | none =>
    exact absurd (beq_iff_eq.mpr heq)
      (List.find?_eq_none.mp hfind t ht)
  | some t0 =>
    have h1 : pyLower t0 = pyLower q :=
      beq_iff_eq.mp (List.find?_some (p := fun t' => pyLower t' == pyLower q) hfind)
    have h2 : t0 ∈ cat := List.mem_of_find?_eq_some hfind
    rw [huniq t0 h2 h1]

theorem find?_lower_eq_none (cat : List String) (q : String)
    (hno : ∀ t ∈ cat, pyLower t ≠ pyLower q) :
    cat.find? (fun t' => pyLower t' == pyLower q) = none := by
  apply List.find?_eq_none.mpr
  intro t ht hbeq
  exact hno t ht (beq_iff_eq.mp hbeq)

/-- C6: `search_templates` returns `[]` on an empty or whitespace-only query;
returns exactly the single case-insensitively equal full name when one
exists; and otherwise returns the prefix matches in catalog iteration order
followed by the not-yet-included substring matches in catalog iteration
order, without duplicates. -/
theorem claim_C6_search_spec (m : Manifest) (q : String) :
    (pyStrip q = "" → search_templates m q = [])
    ∧ (pyStrip q ≠ "" →
        ∀ t ∈ allTemplateNames m, pyLower t = pyLower q →
          (∀ t' ∈ allTemplateNames m, pyLower t' = pyLower q → t' = t) →
          search_templates m q = [t])
    ∧ (pyStrip q ≠ "" → (∀ t ∈ allTemplateNames m, pyLower t ≠ pyLower q) →
        (allTemplateNames m).Nodup →
        search_templates m q =
          (allTemplateNames m).filter
              (fun t => (pyLower q).data.isPrefixOf (pyLower t).data)
            ++ (allTemplateNames m).filter
              (fun t => listContains (pyLower q).data (pyLower t).data
                && !((allTemplateNames m).filter
                      (fun t' => (pyLower q).data.isPrefixOf (pyLower t').data)).contains t))
    ∧ ((allTemplateNames m).Nodup → (search_templates m q).Nodup) := by
  refine ⟨?_, ?_, ?_, ?_⟩
  · intro h
    rw [search_templates, if_pos h]
  · intro hq t ht heq huniq
    rw [search_templates, if_neg hq, find?_lower_eq_some _ q t ht heq huniq]
  · intro hq hno hnd
    rw [search_templates, if_neg hq, find?_lower_eq_none _ q hno]
    exact containsLoop_eq (pyLower q) (allTemplateNames m) _ hnd
  · intro hnd
    rw [search_templates]
    by_cases hq : pyStrip q = ""
    · rw [if_pos hq]
      exact List.nodup_nil
    · rw [if_neg hq]
      cases hfind : (allTemplateNames m).find? (fun t => pyLower t == pyLower q) with
      | some t =>
        exact List.nodup_singleton t
      | none =>
        show (containsLoop (pyLower q)
          ((allTemplateNames m).filter
            (fun t => (pyLower q).data.isPrefixOf (pyLower t).data))
          (allTemplateNames m)).Nodup
        rw [containsLoop_eq _ _ _ hnd]
        rw [List.nodup_append]
        refine ⟨hnd.filter _, hnd.filter _, ?_⟩
        intro x hx1 hx2
        have hx2' := List.of_mem_filter hx2
        rw [Bool.and_eq_true, Bool.not_eq_true'] at hx2'
        have : x ∈ (allTemplateNames m).filter
            (fun t => (pyLower q).data.isPrefixOf (pyLower t).data) := hx1
        have hmem : (((allTemplateNames m).filter
            (fun t => (pyLower q).data.isPrefixOf (pyLower t).data)).contains x) = true :=
          List.elem_iff.mpr this
        rw [hmem] at hx2'
        cases hx2'.2

/-- C6 witness: a concrete catalog exercising the exact-match branch. -/
theorem claim_C6_witness :
    search_templates
      ⟨[("Python", ⟨"Python.gitignore", "d", "root"⟩)],
       [("Global/Xcode", ⟨"p", "d", "Global"⟩)], [], true⟩ "python" = ["Python"] :=
  (claim_C6_search_spec _ "python").2.1 (by decide) "Python" (by decide) (by decide)
    (by decide)

/-- C7: `resolve_template` returns the case-insensitively equal full name
when one exists; otherwise it returns the unique search candidate when the
search yields exactly one, and `none` when it yields zero or several. -/
theorem claim_C7_resolve_spec (m : Manifest) (nm : String) :
    (∀ t ∈ allTemplateNames m, pyLower t = pyLower nm →
      (∀ t' ∈ allTemplateNames m, pyLower t' = pyLower nm → t' = t) →
      resolve_template m nm = some t)
    ∧ ((∀ t ∈ allTemplateNames m, pyLower t ≠ pyLower nm) →
        ((search_templates m nm).length = 1 →
          resolve_template m nm = (search_templates m nm).head?)
        ∧ ((search_templates m nm).length ≠ 1 → resolve_template m nm = none)) := by
  constructor
  · intro t ht heq huniq
    rw [resolve_template, find?_lower_eq_some _ nm t ht heq huniq]
  · intro hno
    constructor
    · intro hlen
      obtain ⟨x, hx⟩ := List.length_eq_one.mp hlen
      rw [resolve_template, find?_lower_eq_none _ nm hno, hx]
      rfl
    · intro hlen
      rw [resolve_template, find?_lower_eq_none _ nm hno]
      cases hm : search_templates m nm with
      | nil => rfl
      | cons x xs =>
        cases xs with
        | nil => exact absurd (by rw [hm]; rfl) hlen
        | cons y ys => rfl

/-- C7 witness: a concrete catalog exercising the unique-search-candidate
branch. -/
theorem claim_C7_witness :
    resolve_template
      ⟨[("Python", ⟨"Python.gitignore", "d", "root"⟩)],
       [("Global/Xcode", ⟨"p", "d", "Global"⟩)], [], true⟩ "xcode"
      = some "Global/Xcode" := by
  have h := (claim_C7_resolve_spec
    ⟨[("Python", ⟨"Python.gitignore", "d", "root"⟩)],
     [("Global/Xcode", ⟨"p", "d", "Global"⟩)], [], true⟩ "xcode").2 (by decide)
  have h2 := h.1 (by decide)
  rw [h2]
  decide

/-- C9: with the manifest file present, the persisted catalog is valid iff
its age is strictly below 7 days; exactly 7 days is invalid, one microsecond
less is valid. -/
theorem claim_C9_cache_validity :
    (∀ age : Int, is_cache_valid true age = true ↔ age < 7 * 86400000000)
    ∧ is_cache_valid true (7 * 86400000000) = false
    ∧ is_cache_valid true (7 * 86400000000 - 1) = true := by
  refine ⟨?_, by decide, by decide⟩
  intro age
  rw [is_cache_valid, Bool.true_and, decide_eq_true_eq]
  norm_num [CACHE_VALIDITY_DAYS, microsPerDay]

/-- C10: with a non-empty template list, `generate` under the undocumented
`cancel` strategy fails with "Operation cancelled" and leaves an existing
file untouched, but when the file does not exist it falls through and writes
a freshly merged document reporting creation. -/
theorem claim_C10_cancel (ts : List (String × String)) (content : String) (h : ts ≠ []) :
    generate ts "cancel" (some content) = (false, "Operation cancelled", some content)
    ∧ generate ts "cancel" none =
        (true, "Created .gitignore successfully!", some (merge_templates ts false none)) := by
  constructor
  · rw [generate, if_neg h]
    rw [if_pos ⟨rfl, rfl⟩]
  · rw [generate, if_neg h]
    have hcond : ¬ ((none : Option String).isSome ∧ ("cancel" : String) = "cancel") := by
      intro hc
      exact absurd hc.1 (by decide)
    rw [if_neg hcond]
    rfl

/-- C10 witness at a concrete input. -/
theorem claim_C10_witness :
    generate [("A", "x")] "cancel" (some "keep") =
      (false, "Operation cancelled", some "keep") :=
  (claim_C10_cancel [("A", "x")] "keep" (by decide)).1

end Gitignore
